import Mathlib

/-!
Verification of the credential subsystem of the cipher repository: the
SQLite-backed API key store (src/app/api/services/api-key-store.ts), the
admin HTTP routes over it (src/app/api/routes/api-keys.ts) and the bearer
authentication middleware (createApiKeyAuth / createAdminAuth).

Modelling conventions:
* The SQLite table is a list of rows (`Table`); insertion order is list
  order.  Prepared statements become pure functions on that list.
* SHA-256 (`hashKey` in the source) is an abstract function parameter
  `hash : String → String`; collision-freedom, where a statement needs it,
  is an explicit `Function.Injective` hypothesis.
* JavaScript truthiness, `x || y` defaulting, `String.prototype.split(' ')`
  and `trim()` are modelled by executable Lean functions with the same
  semantics (`JsVal.truthy`, `jsSplitSpace`, `jsTrim`).
* `Date.now()`, `randomBytes`-generated keys and `randomUUID()` ids are
  oracle parameters of the operations that read them.
* An UPDATE / DELETE statement's `result.changes` is the number of rows
  matched by its WHERE clause — SQLite counts a row as changed even when
  the assigned values equal the old ones.
* The best-effort `updateLastUsed` touch inside `validate` can throw; the
  source swallows the exception.  A `touchFails` Boolean oracle selects
  whether that statement fails (in which case the single-statement update
  leaves the table untouched).
-/

namespace Cipher

/-- JavaScript `String.prototype.split(' ')` helper over the character list:
splitting on every single space, keeping empty fragments. -/
def splitSpaceAux : List Char → List Char → List String
| [], acc => [String.mk acc.reverse]
| c :: cs, acc =>
  if c = ' ' then String.mk acc.reverse :: splitSpaceAux cs []
  else splitSpaceAux cs (c :: acc)

/-- JavaScript `s.split(' ')`. -/
def jsSplitSpace (s : String) : List String := splitSpaceAux s.data []

/-- JavaScript `s.trim()`: drop whitespace from both ends. -/
def jsTrim (s : String) : String :=
  String.mk ((s.data.dropWhile Char.isWhitespace).reverse.dropWhile Char.isWhitespace).reverse

/-- JavaScript `s.startsWith('sk-')`, the structural check on generated keys. -/
def startsWithSk (s : String) : Bool := "sk-".data.isPrefixOf s.data

/-- A value of a JSON request-body field as JavaScript sees it.  Array
elements are modelled as strings: no element shape beyond string equality is
ever inspected downstream. -/
inductive JsVal where
| undef
| jnull
| jbool (b : Bool)
| jnum (n : Int)
| jstr (s : String)
| jarr (elems : List String)
deriving DecidableEq

/-- JavaScript truthiness of a `JsVal`. -/
def JsVal.truthy : JsVal → Bool
| .undef => false
| .jnull => false
| .jbool b => b
| .jnum n => !(n == 0)
| .jstr s => !(s == "")
| .jarr _ => true

/-- JavaScript `Array.isArray`. -/
def JsVal.isArr : JsVal → Bool
| .jarr _ => true
| _ => false

/-- JavaScript `Number(x)` coercion, `none` standing for NaN.  Strings are
modelled for plain decimal integers (the shapes the routes are exercised
with); other numeric string formats are out of scope. -/
def JsVal.toNumber : JsVal → Option Int
| .undef => none
| .jnull => some 0
| .jbool b => some (if b then 1 else 0)
| .jnum n => some n
| .jstr s => if jsTrim s = "" then some 0 else (jsTrim s).toInt?
| .jarr _ => none

/-- A persisted API key row — `ApiKeyRecord` in api-key-store.ts.  The
source field holding the first characters of the key for display is called
`displayFragment` here. -/
structure ApiKeyRecord where
  id : String
  name : String
  displayFragment : String
  keyHash : String
  permissions : List String
  createdAt : Int
  lastUsedAt : Option Int
  expiresAt : Option Int
  revoked : Bool
deriving DecidableEq

/-- The api_keys table: rows in insertion order. -/
abbrev Table := List ApiKeyRecord

/-- Input of `ApiKeyStore.create`; `none` models an omitted (undefined)
optional field. -/
structure CreateApiKeyInput where
  name : String
  permissions : Option (List String)
  expiresAt : Option Int
deriving DecidableEq

/-- Result of `ApiKeyStore.create`: the plaintext key (shown once) and the
created row. -/
structure CreateApiKeyResult where
  key : String
  record : ApiKeyRecord
deriving DecidableEq

namespace ApiKeyStore

/-- JavaScript `input.expiresAt || null`: null, undefined and 0 collapse to
null; every other number is kept. -/
def orNullInt : Option Int → Option Int
| none => none
| some e => if e = 0 then none else some e

/-- JavaScript `input.permissions || ['*']`: undefined defaults to the
wildcard list; any present array — including the empty one, which is truthy
in JavaScript — is kept as is. -/
def orStarPerms : Option (List String) → List String
| none => ["*"]
| some ps => ps

/-- ApiKeyStore.create: builds the row from the generated key and inserts
it.  The INSERT throws (`Except.error`) when the PRIMARY KEY on id or the
UNIQUE constraint on key_hash is violated. -/
def create (hash : String → String) (key id : String) (now : Int)
    (input : CreateApiKeyInput) (t : Table) :
    Except Unit (CreateApiKeyResult × Table) :=
  let keyHash := hash key
  let frag := key.take 10 ++ "..."
  if t.any (fun r => r.id == id || r.keyHash == keyHash) then .error ()
  else
    let record : ApiKeyRecord :=
      { id := id, name := input.name, displayFragment := frag,
        keyHash := keyHash, permissions := orStarPerms input.permissions,
        createdAt := now, lastUsedAt := none,
        expiresAt := orNullInt input.expiresAt, revoked := false }
    .ok ({ key := key, record := record }, t ++ [record])

/-- The expiry test inside `validate`:
`record.expiresAt && Date.now() > record.expiresAt` — a stored 0 is falsy
in JavaScript and therefore never treated as an expiry. -/
def expiryElapsed (now : Int) (r : ApiKeyRecord) : Bool :=
  match r.expiresAt with
  | none => false
  | some e => if e = 0 then false else decide (e < now)

/-- ApiKeyStore.validate: hash the key, look it up among non-revoked rows
(`WHERE key_hash = ? AND revoked = 0`), fail on elapsed expiry, then
best-effort touch last_used_at (`touchFails` selects whether that UPDATE
throws; the source swallows the exception). -/
def validate (hash : String → String) (key : String) (now : Int)
    (touchFails : Bool) (t : Table) : Option ApiKeyRecord × Table :=
  let keyHash := hash key
  match t.find? (fun r => r.keyHash == keyHash && !r.revoked) with
  | none => (none, t)
  | some record =>
    if expiryElapsed now record then (none, t)
    else
      (some record,
        if touchFails then t
        else t.map fun r =>
          if r.id = record.id then { r with lastUsedAt := some now } else r)

/-- ApiKeyStore.getById: `SELECT * FROM api_keys WHERE id = ?`. -/
def getById (id : String) (t : Table) : Option ApiKeyRecord :=
  t.find? (fun r => r.id == id)

/-- Descending creation order, the ORDER BY created_at DESC sort key. -/
def createdDesc (a b : ApiKeyRecord) : Prop := b.createdAt ≤ a.createdAt

instance : DecidableRel createdDesc := fun a b =>
  inferInstanceAs (Decidable (b.createdAt ≤ a.createdAt))

instance : IsTotal ApiKeyRecord createdDesc :=
  ⟨fun a b => le_total b.createdAt a.createdAt⟩

instance : IsTrans ApiKeyRecord createdDesc :=
  ⟨fun _ _ _ h1 h2 => le_trans h2 h1⟩

/-- ApiKeyStore.list: all rows or only the non-revoked ones, ordered by
created_at descending. -/
def list (includeRevoked : Bool) (t : Table) : Table :=
  List.insertionSort createdDesc
    (if includeRevoked then t else t.filter (fun r => !r.revoked))

/-- ApiKeyStore.revoke: `UPDATE api_keys SET revoked = 1 WHERE id = ?`;
the reported Boolean is `changes > 0` where SQLite counts every row matched
by the WHERE clause. -/
def revoke (id : String) (t : Table) : Bool × Table :=
  (decide (0 < t.countP (fun r => r.id == id)),
   t.map fun r => if r.id = id then { r with revoked := true } else r)

/-- ApiKeyStore.delete: `DELETE FROM api_keys WHERE id = ?`. -/
def deleteKey (id : String) (t : Table) : Bool × Table :=
  (decide (0 < t.countP (fun r => r.id == id)),
   t.filter (fun r => !(r.id == id)))

/-- ApiKeyStore.updateName: `UPDATE api_keys SET name = ? WHERE id = ?`. -/
def updateName (id nm : String) (t : Table) : Bool × Table :=
  (decide (0 < t.countP (fun r => r.id == id)),
   t.map fun r => if r.id = id then { r with name := nm } else r)

/-- ApiKeyStore.getActiveCount: count of rows with revoked = 0. -/
def getActiveCount (t : Table) : Nat := t.countP (fun r => !r.revoked)

end ApiKeyStore

/-- Request body of POST /api/admin/keys, each field a JavaScript value
(`undef` when the field is missing). -/
structure CreateBody where
  name : JsVal
  permissions : JsVal
  expiresAt : JsVal
deriving DecidableEq

/-- Response of the POST / handler: a 400 validation error, the 201 payload
(which echoes the plaintext key exactly once), or the 500 catch-all. -/
inductive CreateResp where
| validationError (msg : String)
| created (key id name frag : String) (permissions : List String)
    (createdAt : Int) (expiresAt : Option Int)
| internalError
deriving DecidableEq

/-- Whether a response is the 400 validation rejection. -/
def CreateResp.isValidationError : CreateResp → Bool
| .validationError _ => true
| _ => false

/-- POST / handler of api-keys.ts: field validation in source order, then
`store.create` with the JavaScript-defaulted arguments. -/
def postKeys (hash : String → String) (key id : String) (now : Int)
    (body : CreateBody) (t : Table) : CreateResp × Table :=
  match body.name with
  | JsVal.jstr nm =>
    if (jsTrim nm).length = 0 then
      (.validationError "Name is required and must be a non-empty string", t)
    else if nm.length > 100 then
      (.validationError "Name must be 100 characters or less", t)
    else if body.permissions.truthy && !body.permissions.isArr then
      (.validationError "Permissions must be an array of strings", t)
    else
      let expiryBad : Bool :=
        if body.expiresAt = JsVal.undef ∨ body.expiresAt = JsVal.jnull then
          false
        else
          match body.expiresAt.toNumber with
          | none => true
          | some n => decide (n ≤ now)
      if expiryBad then
        (.validationError "expiresAt must be a future Unix timestamp in milliseconds", t)
      else
        let permArg : List String :=
          match body.permissions with
          | JsVal.jarr xs => xs
          | _ => ["*"]
        let expArg : Option Int :=
          if body.expiresAt.truthy then body.expiresAt.toNumber else none
        match ApiKeyStore.create hash key id now
            { name := jsTrim nm, permissions := some permArg,
              expiresAt := expArg } t with
        | .error _ => (.internalError, t)
        | .ok (res, t2) =>
          (.created res.key res.record.id res.record.name
            res.record.displayFragment res.record.permissions
            res.record.createdAt res.record.expiresAt, t2)
  | other =>
    let _ := other
    (.validationError "Name is required and must be a non-empty string", t)

/-- The sanitized view built by the GET handlers: every KeyRecord field
except the secret digest (and, of course, the plaintext). -/
structure SanitizedKey where
  id : String
  name : String
  displayFragment : String
  permissions : List String
  createdAt : Int
  lastUsedAt : Option Int
  expiresAt : Option Int
  revoked : Bool
deriving DecidableEq

/-- Strip a row to its sanitized view. -/
def sanitize (r : ApiKeyRecord) : SanitizedKey :=
  { id := r.id, name := r.name, displayFragment := r.displayFragment,
    permissions := r.permissions, createdAt := r.createdAt,
    lastUsedAt := r.lastUsedAt, expiresAt := r.expiresAt,
    revoked := r.revoked }

/-- GET / handler of api-keys.ts: `req.query.includeRevoked === 'true'`
selects whether revoked rows are listed; the key hash is stripped from every
element. -/
def getKeysRoute (includeRevokedQuery : Option String) (t : Table) :
    List SanitizedKey :=
  let includeRevoked := includeRevokedQuery == some "true"
  (ApiKeyStore.list includeRevoked t).map sanitize

/-- Response of GET /:keyId — 404 or the sanitized record. -/
inductive GetKeyResp where
| notFound
| found (k : SanitizedKey)
deriving DecidableEq

/-- GET /:keyId handler of api-keys.ts. -/
def getKeyByIdRoute (id : String) (t : Table) : GetKeyResp :=
  match ApiKeyStore.getById id t with
  | none => .notFound
  | some r => .found (sanitize r)

/-- Outcome of an authentication middleware: an errorResponse with the
given HTTP status, or next() with the optionally attached record. -/
inductive GateResult where
| reject (status : Nat)
| proceed (attached : Option ApiKeyRecord)
deriving DecidableEq

/-- createApiKeyAuth middleware: missing header, malformed header and
non-sk- tokens are rejected 401 before the store is consulted; a validated
record is attached to the request. -/
def apiKeyAuth (hash : String → String) (authHeader : Option String)
    (now : Int) (touchFails : Bool) (t : Table) : GateResult × Table :=
  match authHeader with
  | none => (.reject 401, t)
  | some h =>
    let parts := jsSplitSpace h
    if parts.length ≠ 2 || parts.headD "" ≠ "Bearer" then (.reject 401, t)
    else
      let key := parts.getD 1 ""
      if key = "" || !startsWithSk key then (.reject 401, t)
      else
        match ApiKeyStore.validate hash key now touchFails t with
        | (none, t2) => (.reject 401, t2)
        | (some r, t2) => (.proceed (some r), t2)

/-- The source's `adminKey && token === adminKey` guard: the environment
value must be set and truthy (non-empty) and equal to the token. -/
def rootMatch (adminKey : Option String) (token : String) : Bool :=
  match adminKey with
  | some a => !(a == "") && token == a
  | none => false

/-- createAdminAuth middleware.  `adminKey` is process.env.CIPHER_ADMIN_KEY
(`none` when unset); an empty string is falsy in JavaScript, so it disables
the environment path exactly as the source's `adminKey &&` guard does.  The
environment path attaches no record and never consults the store. -/
def adminAuth (hash : String → String) (adminKey : Option String)
    (authHeader : Option String) (now : Int) (touchFails : Bool)
    (t : Table) : GateResult × Table :=
  match authHeader with
  | none => (.reject 401, t)
  | some h =>
    let parts := jsSplitSpace h
    if parts.length ≠ 2 || parts.headD "" ≠ "Bearer" then (.reject 401, t)
    else
      let token := parts.getD 1 ""
      if rootMatch adminKey token then
        (.proceed none, t)
      else if startsWithSk token then
        match ApiKeyStore.validate hash token now touchFails t with
        | (some r, t2) =>
          if r.permissions.contains "*" || r.permissions.contains "admin:*" then
            (.proceed (some r), t2)
          else (.reject 403, t2)
        | (none, t2) => (.reject 403, t2)
      else (.reject 403, t)

/-- Well-formedness of a table, maintained by every store operation: unique
ids (PRIMARY KEY), unique digests (UNIQUE key_hash), no stored expiry of 0
(the JavaScript `|| null` defaulting collapses 0 before insertion), and
every digest comes from hashing some generated sk- key. -/
structure WF (hash : String → String) (t : Table) : Prop where
  idsNodup : (t.map ApiKeyRecord.id).Nodup
  hashesNodup : (t.map ApiKeyRecord.keyHash).Nodup
  noZeroExpiry : ∀ r ∈ t, r.expiresAt ≠ some 0
  hashFromStoreKey : ∀ r ∈ t, ∃ k, startsWithSk k = true ∧ r.keyHash = hash k

/-- One store operation together with the oracle inputs it reads. -/
inductive Op where
| createOp (key id : String) (now : Int) (input : CreateApiKeyInput)
| validateOp (key : String) (now : Int) (touchFails : Bool)
| revokeOp (id : String)
| deleteOp (id : String)
| updateNameOp (id nm : String)
| getByIdOp (id : String)
| listOp (includeRevoked : Bool)
| countOp

/-- State transition of one store operation (a failed INSERT leaves the
table unchanged; read-only operations are identities on state). -/
def applyOp (hash : String → String) : Op → Table → Table
| .createOp key id now input, t =>
  match ApiKeyStore.create hash key id now input t with
  | .ok (_, t2) => t2
  | .error _ => t
| .validateOp key now touchFails, t =>
  (ApiKeyStore.validate hash key now touchFails t).2
| .revokeOp id, t => (ApiKeyStore.revoke id t).2
| .deleteOp id, t => (ApiKeyStore.deleteKey id t).2
| .updateNameOp id nm, t => (ApiKeyStore.updateName id nm t).2
| .getByIdOp _, t => t
| .listOp _, t => t
| .countOp, t => t

/-- Keys fed to createOp are the generateKey outputs, which always carry the
sk- tag. -/
def Op.keyOk : Op → Prop
| .createOp key _ _ _ => startsWithSk key = true
| _ => True

/-- Tables reachable from the empty table by store operations whose create
keys have the generated sk- shape. -/
inductive Reachable (hash : String → String) : Table → Prop where
| empty : Reachable hash []
| step (op : Op) (t : Table) (h : Reachable hash t) (hk : op.keyOk) :
    Reachable hash (applyOp hash op t)

/-- A concrete injective stand-in for SHA-256 used by witnesses. -/
def chash (s : String) : String := String.mk ('#' :: s.data)

/-- A sample revoked row used by concrete counterexamples. -/
def sampleRevoked : ApiKeyRecord :=
  { id := "a", name := "ci bot", displayFragment := "sk-abcdefg...",
    keyHash := chash "sk-abcdefgh", permissions := ["*"], createdAt := 1,
    lastUsedAt := none, expiresAt := none, revoked := true }

/-- A sample live row used by concrete witnesses. -/
def sampleLive : ApiKeyRecord :=
  { id := "b", name := "deploy", displayFragment := "sk-etcetra...",
    keyHash := chash "sk-etcetral", permissions := ["*"], createdAt := 2,
    lastUsedAt := none, expiresAt := none, revoked := false }

/-- A sample live row whose permission list is exactly ["read"]. -/
def sampleReadOnly : ApiKeyRecord :=
  { id := "c", name := "reader", displayFragment := "sk-reader1...",
    keyHash := chash "sk-reader12", permissions := ["read"], createdAt := 3,
    lastUsedAt := none, expiresAt := none, revoked := false }

/-- The sample live row with a different stored digest (every other column
equal), for digest-noninterference witnesses. -/
def sampleLiveAlt : ApiKeyRecord := { sampleLive with keyHash := "other" }

/-- The row created by the concrete create witness. -/
def sampleCreated : ApiKeyRecord :=
  { id := "w", name := "n", displayFragment := "sk-wit...",
    keyHash := chash "sk-wit", permissions := ["*"], createdAt := 5,
    lastUsedAt := none, expiresAt := none, revoked := false }

/-- Rows equal in every column except the secret digest. -/
def SameButDigest (a b : ApiKeyRecord) : Prop :=
  a.id = b.id ∧ a.name = b.name ∧ a.displayFragment = b.displayFragment ∧
  a.permissions = b.permissions ∧ a.createdAt = b.createdAt ∧
  a.lastUsedAt = b.lastUsedAt ∧ a.expiresAt = b.expiresAt ∧
  a.revoked = b.revoked

/-! Helper lemmas shared by the claim theorems. -/

/-- The concrete hash stand-in is injective. -/
theorem chash_inj : Function.Injective chash := by
  intro a b h
  have h2 : '#' :: a.data = '#' :: b.data := congrArg String.data h
  injection h2 with _ h3
  exact String.ext h3

/-- The empty table is well formed. -/
theorem wf_nil (hash : String → String) : WF hash [] :=
  ⟨List.nodup_nil, List.nodup_nil, by simp, by simp⟩

/-- The singleton table holding the sample live row is well formed for the
concrete hash. -/
theorem wf_sampleLive : WF chash [sampleLive] := by
  refine ⟨by decide, by decide, by decide, ?_⟩
  intro r hr
  simp only [List.mem_singleton] at hr
  subst hr
  exact ⟨"sk-etcetral", by decide, rfl⟩

/-- Elimination form of a successful create: the freshness guard held and
the result and new table have the literal insert shape. -/
theorem create_ok_elim (hash : String → String) (key id : String) (now : Int)
    (input : CreateApiKeyInput) (t : Table) (res : CreateApiKeyResult)
    (t2 : Table)
    (h : ApiKeyStore.create hash key id now input t = .ok (res, t2)) :
    t.any (fun r => r.id == id || r.keyHash == hash key) = false
    ∧ res.key = key
    ∧ res.record =
        { id := id, name := input.name,
          displayFragment := key.take 10 ++ "...", keyHash := hash key,
          permissions := ApiKeyStore.orStarPerms input.permissions,
          createdAt := now, lastUsedAt := none,
          expiresAt := ApiKeyStore.orNullInt input.expiresAt,
          revoked := false }
    ∧ t2 = t ++ [res.record] := by
  unfold ApiKeyStore.create at h
  by_cases hany : t.any (fun r => r.id == id || r.keyHash == hash key) = true
  · simp [hany] at h
  · rw [Bool.not_eq_true] at hany
    simp only [hany, Bool.false_eq_true, if_false, Except.ok.injEq,
      Prod.mk.injEq] at h
    obtain ⟨hres, ht2⟩ := h
    subst hres
    exact ⟨hany, rfl, rfl, ht2.symm⟩

/-- Characterization of the validate result against the rows of a table
with unique digests: the code returns exactly the matching non-revoked row
whose expiry test fails. -/
theorem validate_fst_iff (hash : String → String) (key : String) (now : Int)
    (tf : Bool) (t : Table) (hnd : (t.map ApiKeyRecord.keyHash).Nodup)
    (r : ApiKeyRecord) :
    (ApiKeyStore.validate hash key now tf t).1 = some r ↔
      r ∈ t ∧ r.keyHash = hash key ∧ r.revoked = false ∧
        ApiKeyStore.expiryElapsed now r = false := by
  unfold ApiKeyStore.validate
  cases hf : t.find? (fun x => x.keyHash == hash key && !x.revoked) with
  | none =>
    simp only [hf]
    constructor
    · intro h; exact absurd h (by simp)
    · rintro ⟨hm, hk, hrv, -⟩
      have hpa := List.find?_eq_none.mp hf r hm
      simp [hk, hrv] at hpa
  | some r0 =>
    have hmem : r0 ∈ t := List.mem_of_find?_eq_some hf
    have hp := List.find?_some hf
    simp only [Bool.and_eq_true, beq_iff_eq, Bool.not_eq_true'] at hp
    obtain ⟨hkh, hrv⟩ := hp
    by_cases he : ApiKeyStore.expiryElapsed now r0 = true
    · simp only [hf, he, if_true]
      constructor
      · intro h; exact absurd h (by simp)
      · rintro ⟨hm, hk, -, hexp⟩
        have hrr : r = r0 :=
          List.inj_on_of_nodup_map hnd hm hmem (by rw [hk, hkh])
        rw [hrr, he] at hexp
        cases hexp
    · rw [Bool.not_eq_true] at he
      simp only [hf, he, Bool.false_eq_true, if_false, Option.some.injEq]
      constructor
      · intro h; subst h; exact ⟨hmem, hkh, hrv, he⟩
      · rintro ⟨hm, hk, -, -⟩
        exact List.inj_on_of_nodup_map hnd hmem hm (by rw [hkh, hk])

/-- Membership form: a validated record is one of the rows and carries the
digest of the presented key. -/
theorem validate_fst_mem (hash : String → String) (key : String) (now : Int)
    (tf : Bool) (t : Table) (r : ApiKeyRecord)
    (h : (ApiKeyStore.validate hash key now tf t).1 = some r) :
    r ∈ t ∧ r.keyHash = hash key := by
  unfold ApiKeyStore.validate at h
  cases hf : t.find? (fun x => x.keyHash == hash key && !x.revoked) with
  | none => exact absurd h (by simp [hf])
  | some r0 =>
    simp only [hf] at h
    have hmem : r0 ∈ t := List.mem_of_find?_eq_some hf
    have hp := List.find?_some hf
    simp only [Bool.and_eq_true, beq_iff_eq, Bool.not_eq_true'] at hp
    by_cases he : ApiKeyStore.expiryElapsed now r0 = true
    · simp [he] at h
    · rw [Bool.not_eq_true] at he
      simp only [he, Bool.false_eq_true, if_false, Option.some.injEq] at h
      subst h
      exact ⟨hmem, hp.1⟩

/-- The state left by validate: either untouched, or the lastUsedAt touch
applied to the rows carrying the found record's id. -/
theorem validate_snd_cases (hash : String → String) (key : String)
    (now : Int) (tf : Bool) (t : Table) :
    (ApiKeyStore.validate hash key now tf t).2 = t ∨
    ∃ r0 : ApiKeyRecord, (ApiKeyStore.validate hash key now tf t).2 =
      t.map (fun a =>
        if a.id = r0.id then { a with lastUsedAt := some now } else a) := by
  unfold ApiKeyStore.validate
  cases hf : t.find? (fun x => x.keyHash == hash key && !x.revoked) with
  | none => left; simp [hf]
  | some r0 =>
    by_cases he : ApiKeyStore.expiryElapsed now r0 = true
    · left; simp [hf, he]
    · cases tf with
      | true => left; simp [hf, he]
      | false => right; exact ⟨r0, by simp [hf, he]⟩

/-- Expiry test versus the specification wording, on rows that never store
a zero expiry: the code's check fails exactly when the expiry is absent or
not in the past. -/
theorem expiryElapsed_false_iff (now : Int) (r : ApiKeyRecord)
    (hz : r.expiresAt ≠ some 0) :
    ApiKeyStore.expiryElapsed now r = false ↔
      (r.expiresAt = none ∨ ∃ e, r.expiresAt = some e ∧ now ≤ e) := by
  unfold ApiKeyStore.expiryElapsed
  cases hcase : r.expiresAt with
  | none => simp
  | some e =>
    have hez : e ≠ 0 := by
      intro h; subst h; exact hz hcase
    simp only [hez, if_false, decide_eq_false_iff_not, not_lt, hcase,
      Option.some.injEq, reduceCtorEq, false_or]
    constructor
    · intro h; exact ⟨e, rfl, h⟩
    · rintro ⟨e2, he2, h⟩; cases he2; exact h

/-- C1: for every key string k, validate(k) returns the stored record iff a
row exists whose digest equals digest(k), whose revoked flag is false and
whose expiresAt is absent or not in the past; in every other case it
returns absent.  Stated over well-formed tables (unique digests, no stored
zero expiry — the invariant every store operation maintains). -/
theorem validate_returns_record_iff (hash : String → String) (key : String)
    (now : Int) (tf : Bool) (t : Table) (hwf : WF hash t)
    (r : ApiKeyRecord) :
    (ApiKeyStore.validate hash key now tf t).1 = some r ↔
      r ∈ t ∧ r.keyHash = hash key ∧ r.revoked = false ∧
        (r.expiresAt = none ∨ ∃ e, r.expiresAt = some e ∧ now ≤ e) := by
  rw [validate_fst_iff hash key now tf t hwf.hashesNodup r]
  constructor
  · rintro ⟨hm, hk, hrv, hexp⟩
    exact ⟨hm, hk, hrv,
      (expiryElapsed_false_iff now r (hwf.noZeroExpiry r hm)).mp hexp⟩
  · rintro ⟨hm, hk, hrv, hexp⟩
    exact ⟨hm, hk, hrv,
      (expiryElapsed_false_iff now r (hwf.noZeroExpiry r hm)).mpr hexp⟩

/-- Witness for C1: the sample live key validates to its row. -/
theorem validate_returns_record_iff_witness :
    (ApiKeyStore.validate chash "sk-etcetral" 5 false [sampleLive]).1 =
      some sampleLive :=
  (validate_returns_record_iff chash "sk-etcetral" 5 false [sampleLive]
      wf_sampleLive sampleLive).mpr
    ⟨by decide, rfl, rfl, Or.inl rfl⟩

/-- C10: validate is frame-bounded.  When it returns absent the table is
unchanged; when it returns a record, the result does not depend on whether
the best-effort lastUsedAt UPDATE fails, a failing UPDATE leaves the table
unchanged, and a succeeding one rewrites only the lastUsedAt column of the
rows carrying the returned record's id (a single row, since the table keeps
ids unique). -/
theorem validate_frame_bounded (hash : String → String) (key : String)
    (now : Int) (t : Table) :
    ((ApiKeyStore.validate hash key now true t).1 =
        (ApiKeyStore.validate hash key now false t).1)
    ∧ ((ApiKeyStore.validate hash key now true t).2 = t)
    ∧ (∀ tf, (ApiKeyStore.validate hash key now tf t).1 = none →
        (ApiKeyStore.validate hash key now tf t).2 = t)
    ∧ (∀ r, (ApiKeyStore.validate hash key now false t).1 = some r →
        r ∈ t ∧
        List.Forall₂ (fun a b =>
            a.id = b.id ∧ a.name = b.name ∧
            a.displayFragment = b.displayFragment ∧
            a.keyHash = b.keyHash ∧ a.permissions = b.permissions ∧
            a.createdAt = b.createdAt ∧ a.expiresAt = b.expiresAt ∧
            a.revoked = b.revoked ∧
            (a.id ≠ r.id → b.lastUsedAt = a.lastUsedAt) ∧
            (a.id = r.id → b.lastUsedAt = some now))
          t (ApiKeyStore.validate hash key now false t).2) := by
  unfold ApiKeyStore.validate
  cases hf : t.find? (fun x => x.keyHash == hash key && !x.revoked) with
  | none =>
    refine ⟨by simp [hf], by simp [hf], fun tf h => by simp [hf],
      fun r h => absurd h (by simp [hf])⟩
  | some r0 =>
    by_cases he : ApiKeyStore.expiryElapsed now r0 = true
    · refine ⟨by simp [hf, he], by simp [hf, he], fun tf h => by simp [hf, he],
        fun r h => absurd h (by simp [hf, he])⟩
    · rw [Bool.not_eq_true] at he
      refine ⟨by simp [hf, he], by simp [hf, he], fun tf h => ?_, fun r h => ?_⟩
      · simp [hf, he] at h
      · simp only [hf, he, Bool.false_eq_true, if_false,
          Option.some.injEq] at h
        subst h
        refine ⟨List.mem_of_find?_eq_some hf, ?_⟩
        simp only [hf, he, Bool.false_eq_true, if_false]
        rw [List.forall₂_map_right_iff, List.forall₂_same]
        intro a _
        by_cases hid : a.id = r0.id
        · simp [hid]
        · simp [hid]

/-- Witness for C10, at the sample live key and table. -/
theorem validate_frame_bounded_witness :
    (ApiKeyStore.validate chash "sk-etcetral" 5 true [sampleLive]).1 =
      (ApiKeyStore.validate chash "sk-etcetral" 5 false [sampleLive]).1
    ∧ (ApiKeyStore.validate chash "sk-etcetral" 5 true [sampleLive]).2 =
      [sampleLive] := by
  have h := validate_frame_bounded chash "sk-etcetral" 5 [sampleLive]
  exact ⟨h.1, h.2.1⟩

/-- Counterexample to C3: revoking an id whose row is already revoked
returns true, not false — SQLite's affected-row count includes rows the
WHERE clause matched even though no value changed — while the table is
indeed left unchanged. -/
theorem revoke_already_revoked_returns_true :
    ApiKeyStore.revoke "a" [sampleRevoked] = (true, [sampleRevoked]) := by
  decide

/-- C3 (amended): revoke is idempotent in state; the first call on an
existing id reports true and leaves every matching row revoked; a second
call on the already-revoked id returns true again (the affected-row count
counts matched rows, not value changes) and leaves every row unchanged;
revoke on an unknown id returns false rather than throwing, leaving the
table unchanged; rows with other ids keep every column. -/
theorem revoke_idempotent_amended (i : String) (t : Table) :
    ((∃ r ∈ t, r.id = i) →
        (ApiKeyStore.revoke i t).1 = true
        ∧ (∀ r2 ∈ (ApiKeyStore.revoke i t).2, r2.id = i → r2.revoked = true)
        ∧ ApiKeyStore.revoke i (ApiKeyStore.revoke i t).2 =
            (true, (ApiKeyStore.revoke i t).2))
    ∧ ((¬ ∃ r ∈ t, r.id = i) → ApiKeyStore.revoke i t = (false, t))
    ∧ List.Forall₂ (fun a b =>
        a.id = b.id ∧ a.name = b.name ∧ a.displayFragment = b.displayFragment ∧
        a.keyHash = b.keyHash ∧ a.permissions = b.permissions ∧
        a.createdAt = b.createdAt ∧ a.lastUsedAt = b.lastUsedAt ∧
        a.expiresAt = b.expiresAt ∧ (a.id ≠ i → b.revoked = a.revoked))
        t (ApiKeyStore.revoke i t).2 := by
  have hpred : ∀ a : ApiKeyRecord,
      ((if a.id = i then { a with revoked := true } else a).id == i) =
        (a.id == i) := by
    intro a
    by_cases h : a.id = i <;> simp [h]
  have hcntmap : ∀ u : Table,
      (u.map (fun a => if a.id = i then { a with revoked := true } else a)).countP
          (fun x => x.id == i) = u.countP (fun x => x.id == i) := by
    intro u
    rw [List.countP_map]
    refine List.countP_congr ?_
    intro a _
    simp only [Function.comp_apply, hpred a]
  refine ⟨?_, ?_, ?_⟩
  · rintro ⟨r, hr, hri⟩
    have hcnt : 0 < t.countP (fun x => x.id == i) :=
      List.countP_pos_iff.mpr ⟨r, hr, by simp [hri]⟩
    refine ⟨?_, ?_, ?_⟩
    · simp only [ApiKeyStore.revoke, decide_eq_true_eq]
      exact hcnt
    · intro r2 hr2 hid
      simp only [ApiKeyStore.revoke, List.mem_map] at hr2
      obtain ⟨a, -, ha⟩ := hr2
      by_cases h : a.id = i
      · rw [← ha]; simp [h]
      · rw [← ha] at hid
        rw [if_neg h] at hid
        exact absurd hid h
    · have hcnt2 : 0 < (ApiKeyStore.revoke i t).2.countP (fun x => x.id == i) := by
        show 0 < (t.map fun a =>
          if a.id = i then { a with revoked := true } else a).countP
            (fun x => x.id == i)
        rw [hcntmap t]
        exact hcnt
      have hsnd : (ApiKeyStore.revoke i (ApiKeyStore.revoke i t).2).2 =
          (ApiKeyStore.revoke i t).2 := by
        simp only [ApiKeyStore.revoke, List.map_map]
        refine List.map_congr_left ?_
        intro a _
        simp only [Function.comp_apply]
        by_cases h : a.id = i <;> simp [h]
      refine Prod.ext ?_ hsnd
      simp only [ApiKeyStore.revoke, decide_eq_true_eq]
      exact hcnt2
  · intro hne
    have hcnt : t.countP (fun x => x.id == i) = 0 := by
      rw [List.countP_eq_zero]
      intro a ha
      simp only [beq_iff_eq]
      intro hai
      exact hne ⟨a, ha, hai⟩
    have hmap : t.map (fun r => if r.id = i then { r with revoked := true } else r) = t := by
      have h1 : t.map (fun r => if r.id = i then { r with revoked := true } else r) =
          t.map id := by
        refine List.map_congr_left ?_
        intro a ha
        have hai : ¬ a.id = i := fun hai => hne ⟨a, ha, hai⟩
        simp [hai]
      rw [h1, List.map_id]
    refine Prod.ext ?_ hmap
    simp only [ApiKeyStore.revoke, hcnt, decide_eq_true_eq]
    simp
  · simp only [ApiKeyStore.revoke]
    rw [List.forall₂_map_right_iff, List.forall₂_same]
    intro a _
    by_cases h : a.id = i <;> simp [h]

/-- Witness for C3 (amended): first call on a live row reports true. -/
theorem revoke_idempotent_amended_witness :
    (ApiKeyStore.revoke "b" [sampleLive]).1 = true := by
  have h := revoke_idempotent_amended "b" [sampleLive]
  exact (h.1 ⟨sampleLive, by decide, rfl⟩).1

/-- C8: list(false) returns exactly the rows with revoked = false and
list(true) returns all rows including revoked ones; both sequences are
ordered by descending createdAt. -/
theorem list_filters_and_orders (t : Table) :
    (ApiKeyStore.list false t).Perm (t.filter (fun r => !r.revoked))
    ∧ (∀ r ∈ ApiKeyStore.list false t, r.revoked = false)
    ∧ (ApiKeyStore.list true t).Perm t
    ∧ List.Sorted (fun a b => b.createdAt ≤ a.createdAt)
        (ApiKeyStore.list false t)
    ∧ List.Sorted (fun a b => b.createdAt ≤ a.createdAt)
        (ApiKeyStore.list true t) := by
  refine ⟨?_, ?_, ?_, ?_, ?_⟩
  · exact List.perm_insertionSort ApiKeyStore.createdDesc _
  · intro r hr
    have hmem : r ∈ t.filter (fun x => !x.revoked) :=
      (List.perm_insertionSort ApiKeyStore.createdDesc _).mem_iff.mp hr
    have := (List.mem_filter.mp hmem).2
    simpa using this
  · exact List.perm_insertionSort ApiKeyStore.createdDesc _
  · exact List.sorted_insertionSort ApiKeyStore.createdDesc _
  · exact List.sorted_insertionSort ApiKeyStore.createdDesc _

/-- Witness for C8 at a two-row table with one revoked row. -/
theorem list_filters_and_orders_witness :
    (ApiKeyStore.list false [sampleRevoked, sampleLive]).Perm [sampleLive] := by
  have h := (list_filters_and_orders [sampleRevoked, sampleLive]).1
  have hf : ([sampleRevoked, sampleLive] : Table).filter (fun r => !r.revoked) =
      [sampleLive] := by decide
  rw [hf] at h
  exact h

/-- C7: the revoked flag is monotonic — no store operation ever changes a
row's revoked flag from true back to false; a row observed revoked keeps a
revoked row for its id (or disappears entirely under delete). -/
theorem revoked_flag_monotonic (hash : String → String) (op : Op) (t : Table)
    (hnd : (t.map ApiKeyRecord.id).Nodup) (r : ApiKeyRecord) (hr : r ∈ t)
    (hrev : r.revoked = true) :
    ∀ r2 ∈ applyOp hash op t, r2.id = r.id → r2.revoked = true := by
  have hsame : ∀ a ∈ t, a.id = r.id → a.revoked = true := by
    intro a ha hid
    have : a = r := List.inj_on_of_nodup_map hnd ha hr hid
    rw [this]; exact hrev
  cases op with
  | createOp key i now input =>
    intro r2 hr2 hid
    simp only [applyOp] at hr2
    cases hc : ApiKeyStore.create hash key i now input t with
    | error e =>
      rw [hc] at hr2
      exact hsame r2 hr2 hid
    | ok p =>
      obtain ⟨res, t2⟩ := p
      rw [hc] at hr2
      have hr2' : r2 ∈ t2 := hr2
      obtain ⟨hany, -, hrec, ht2⟩ :=
        create_ok_elim hash key i now input t res t2 hc
      rw [ht2] at hr2'
      rcases List.mem_append.mp hr2' with hmem | hmem
      · exact hsame r2 hmem hid
      · exfalso
        rw [List.mem_singleton] at hmem
        subst hmem
        rw [hrec] at hid
        simp only at hid
        rw [List.any_eq_false] at hany
        have := hany r hr
        simp [← hid] at this
  | validateOp key now tf =>
    intro r2 hr2 hid
    simp only [applyOp] at hr2
    rcases validate_snd_cases hash key now tf t with hcase | ⟨r0, hcase⟩
    · rw [hcase] at hr2
      exact hsame r2 hr2 hid
    · rw [hcase, List.mem_map] at hr2
      obtain ⟨a, ha, hfa⟩ := hr2
      by_cases h : a.id = r0.id
      · rw [if_pos h] at hfa
        rw [← hfa] at hid ⊢
        exact hsame a ha hid
      · rw [if_neg h] at hfa
        rw [← hfa] at hid ⊢
        exact hsame a ha hid
  | revokeOp i =>
    intro r2 hr2 hid
    simp only [applyOp, ApiKeyStore.revoke, List.mem_map] at hr2
    obtain ⟨a, ha, hfa⟩ := hr2
    by_cases h : a.id = i
    · rw [if_pos h] at hfa
      rw [← hfa]
    · rw [if_neg h] at hfa
      rw [← hfa] at hid ⊢
      exact hsame a ha hid
  | deleteOp i =>
    intro r2 hr2 hid
    simp only [applyOp, ApiKeyStore.deleteKey] at hr2
    exact hsame r2 (List.mem_filter.mp hr2).1 hid
  | updateNameOp i nm =>
    intro r2 hr2 hid
    simp only [applyOp, ApiKeyStore.updateName, List.mem_map] at hr2
    obtain ⟨a, ha, hfa⟩ := hr2
    by_cases h : a.id = i
    · rw [if_pos h] at hfa
      rw [← hfa] at hid ⊢
      exact hsame a ha hid
    · rw [if_neg h] at hfa
      rw [← hfa] at hid ⊢
      exact hsame a ha hid
  | getByIdOp i =>
    intro r2 hr2 hid
    exact hsame r2 hr2 hid
  | listOp b =>
    intro r2 hr2 hid
    exact hsame r2 hr2 hid
  | countOp =>
    intro r2 hr2 hid
    exact hsame r2 hr2 hid

/-- Witness for C7: updateName on the revoked sample row keeps it
revoked. -/
theorem revoked_flag_monotonic_witness :
    ({ sampleRevoked with name := "x" } : ApiKeyRecord).revoked = true := by
  have h := revoked_flag_monotonic chash (Op.updateNameOp "a" "x")
    [sampleRevoked] (by decide) sampleRevoked (by decide) (by decide)
  exact h { sampleRevoked with name := "x" } (by decide) (by decide)

/-- Counterexample to C9: the POST handler accepts an explicit empty
permissions array — `[] || ['*']` keeps the empty array because an empty
array is truthy in JavaScript — and persists a record whose permissions
set is empty. -/
theorem create_accepts_empty_permissions :
    postKeys chash "sk-abcdefghijklmn" "id1" 5
      { name := JsVal.jstr "A", permissions := JsVal.jarr [],
        expiresAt := JsVal.jnull } [] =
    (CreateResp.created "sk-abcdefghijklmn" "id1" "A" "sk-abcdefg..." [] 5
        none,
     [{ id := "id1", name := "A", displayFragment := "sk-abcdefg...",
        keyHash := chash "sk-abcdefghijklmn", permissions := [],
        createdAt := 5, lastUsedAt := none, expiresAt := none,
        revoked := false }]) := by
  decide

/-- C9 (amended): create with permissions omitted stores the wildcard list
and sets the record's other columns from its inputs; the persisted
permissions set is not always non-empty, since an accepted create call may
supply an explicit empty array. -/
theorem permissions_default_star_amended (hash : String → String)
    (key id : String) (now : Int) (input : CreateApiKeyInput) (t : Table)
    (res : CreateApiKeyResult) (t2 : Table)
    (hp : input.permissions = none)
    (hok : ApiKeyStore.create hash key id now input t = .ok (res, t2)) :
    res.record.permissions = ["*"] ∧ t2 = t ++ [res.record] := by
  obtain ⟨-, -, hrec, ht2⟩ := create_ok_elim hash key id now input t res t2 hok
  refine ⟨?_, ht2⟩
  rw [hrec]
  simp only [hp]
  rfl

/-- Witness for C9 (amended) at a concrete create with omitted
permissions. -/
theorem permissions_default_star_amended_witness :
    (CreateApiKeyResult.mk "sk-wit" sampleCreated).record.permissions = ["*"]
    ∧ ([sampleCreated] : Table) = [] ++ [sampleCreated] :=
  permissions_default_star_amended chash "sk-wit" "w" 5
    { name := "n", permissions := none, expiresAt := none } []
    (CreateApiKeyResult.mk "sk-wit" sampleCreated) [sampleCreated] rfl
    (by rfl)

/-- C6: the AuthGate rejects 401 when the Authorization header is missing,
when it is not exactly Bearer followed by one token, and when the token
lacks the sk- tag — in that case with the table untouched and irrespective
of its contents, i.e. without consulting the store; when validate succeeds
it attaches the resolved record and continues. -/
theorem apiKeyAuth_gate_spec (hash : String → String) (now : Int)
    (tf : Bool) (t : Table) :
    (apiKeyAuth hash none now tf t = (GateResult.reject 401, t))
    ∧ (∀ h, (¬ ∃ tok, jsSplitSpace h = ["Bearer", tok]) →
        apiKeyAuth hash (some h) now tf t = (GateResult.reject 401, t))
    ∧ (∀ h tok, jsSplitSpace h = ["Bearer", tok] →
        startsWithSk tok = false →
        apiKeyAuth hash (some h) now tf t = (GateResult.reject 401, t))
    ∧ (∀ h tok t2, jsSplitSpace h = ["Bearer", tok] →
        startsWithSk tok = true →
        ApiKeyStore.validate hash tok now tf t = (none, t2) →
        apiKeyAuth hash (some h) now tf t = (GateResult.reject 401, t2))
    ∧ (∀ h tok r t2, jsSplitSpace h = ["Bearer", tok] →
        startsWithSk tok = true →
        ApiKeyStore.validate hash tok now tf t = (some r, t2) →
        apiKeyAuth hash (some h) now tf t =
          (GateResult.proceed (some r), t2)) := by
  have hne : ∀ tok : String, startsWithSk tok = true → ¬ tok = "" := by
    intro tok hsk h0
    rw [h0] at hsk
    exact absurd hsk (by decide)
  refine ⟨rfl, ?_, ?_, ?_, ?_⟩
  · intro h hform
    simp only [apiKeyAuth]
    by_cases hlen : (jsSplitSpace h).length = 2
    · by_cases hhd : (jsSplitSpace h).headD "" = "Bearer"
      · exfalso
        obtain ⟨a, b, hab⟩ := List.length_eq_two.mp hlen
        rw [hab] at hhd
        simp only [List.headD_cons] at hhd
        exact hform ⟨b, by rw [hab, hhd]⟩
      · have hguard : (decide ((jsSplitSpace h).length ≠ 2) ||
            decide ((jsSplitSpace h).headD "" ≠ "Bearer")) = true := by
          simp only [Bool.or_eq_true, decide_eq_true_eq]
          right; exact hhd
        rw [if_pos hguard]
    · have hguard : (decide ((jsSplitSpace h).length ≠ 2) ||
          decide ((jsSplitSpace h).headD "" ≠ "Bearer")) = true := by
        simp only [Bool.or_eq_true, decide_eq_true_eq]
        left; exact hlen
      rw [if_pos hguard]
  · intro h tok hsplit hsk
    simp only [apiKeyAuth, hsplit]
    simp [hsk]
  · intro h tok t2 hsplit hsk hv
    simp only [apiKeyAuth, hsplit]
    simp only [List.length_cons, List.length_nil, List.headD_cons,
      List.getD_cons_succ, List.getD_cons_zero]
    simp only [hsk, hne tok hsk]
    simp [hv]
  · intro h tok r t2 hsplit hsk hv
    simp only [apiKeyAuth, hsplit]
    simp only [List.length_cons, List.length_nil, List.headD_cons,
      List.getD_cons_succ, List.getD_cons_zero]
    simp only [hsk, hne tok hsk]
    simp [hv]

/-- Witness for C6: the sample live key passes the gate and is attached. -/
theorem apiKeyAuth_gate_spec_witness :
    apiKeyAuth chash (some "Bearer sk-etcetral") 5 false [sampleLive] =
      (GateResult.proceed (some sampleLive),
       [{ sampleLive with lastUsedAt := some 5 }]) := by
  have h := (apiKeyAuth_gate_spec chash 5 false [sampleLive]).2.2.2.2
  exact h "Bearer sk-etcetral" "sk-etcetral" sampleLive
    [{ sampleLive with lastUsedAt := some 5 }] (by decide) (by decide)
    (by decide)

/-- The root guard holds exactly when a non-empty environment secret is
configured and equals the token. -/
theorem rootMatch_iff (adminKey : Option String) (token : String) :
    rootMatch adminKey token = true ↔
      ∃ a, adminKey = some a ∧ a ≠ "" ∧ token = a := by
  cases adminKey with
  | none => simp [rootMatch]
  | some a =>
    simp only [rootMatch, Bool.and_eq_true, Bool.not_eq_true',
      beq_eq_false_iff_ne, ne_eq, beq_iff_eq, Option.some.injEq]
    constructor
    · rintro ⟨hane, htok⟩; exact ⟨a, rfl, hane, htok⟩
    · rintro ⟨a2, ha2, hane, htok⟩; subst ha2; exact ⟨hane, htok⟩

/-- C2: AdminGate authorizes a request iff the bearer token equals the
configured (non-empty) root secret or the token resolves through validate
to a record whose permissions contain the wildcard or the admin scope; the
root path is checked first and succeeds with no store lookup (table
returned untouched, no record attached); a valid key whose permissions are
exactly ["read"] is rejected with status 403 (Forbidden). -/
theorem adminAuth_authorizes_iff (hash : String → String)
    (hinj : Function.Injective hash) (adminKey : Option String)
    (hdr token : String) (now : Int) (tf : Bool) (t : Table)
    (hwf : WF hash t) (hsplit : jsSplitSpace hdr = ["Bearer", token]) :
    ((∃ o, (adminAuth hash adminKey (some hdr) now tf t).1 =
        GateResult.proceed o) ↔
      ((∃ a, adminKey = some a ∧ a ≠ "" ∧ token = a)
       ∨ (∃ r, (ApiKeyStore.validate hash token now tf t).1 = some r ∧
            ("*" ∈ r.permissions ∨ "admin:*" ∈ r.permissions))))
    ∧ (∀ a, adminKey = some a → a ≠ "" → token = a →
        adminAuth hash adminKey (some hdr) now tf t =
          (GateResult.proceed none, t))
    ∧ (∀ r, adminKey ≠ some token →
        (ApiKeyStore.validate hash token now tf t).1 = some r →
        r.permissions = ["read"] →
        (adminAuth hash adminKey (some hdr) now tf t).1 =
          GateResult.reject 403) := by
  have hred : adminAuth hash adminKey (some hdr) now tf t =
      (if rootMatch adminKey token = true then
        (GateResult.proceed none, t)
      else if startsWithSk token then
        match ApiKeyStore.validate hash token now tf t with
        | (some r, t2) =>
          if r.permissions.contains "*" || r.permissions.contains "admin:*" then
            (GateResult.proceed (some r), t2)
          else (GateResult.reject 403, t2)
        | (none, t2) => (GateResult.reject 403, t2)
      else (GateResult.reject 403, t)) := by
    simp only [adminAuth, hsplit, List.length_cons, List.length_nil,
      List.headD_cons, List.getD_cons_succ, List.getD_cons_zero]
    norm_num
  by_cases hroot : rootMatch adminKey token = true
  · rw [if_pos hroot] at hred
    obtain ⟨a, hak, hane, htok⟩ := (rootMatch_iff adminKey token).mp hroot
    refine ⟨?_, ?_, ?_⟩
    · rw [hred]
      constructor
      · intro _; exact Or.inl ⟨a, hak, hane, htok⟩
      · intro _; exact ⟨none, rfl⟩
    · intro _ _ _ _; exact hred
    · intro r hne hv hperm
      rw [hak, htok] at hne
      exact absurd rfl hne
  · rw [if_neg hroot] at hred
    have hrootfalse : ∀ a, adminKey = some a → a ≠ "" → token ≠ a := by
      intro a hak hane htok
      exact hroot ((rootMatch_iff adminKey token).mpr ⟨a, hak, hane, htok⟩)
    by_cases hsk : startsWithSk token = true
    · rw [if_pos hsk] at hred
      cases hv : ApiKeyStore.validate hash token now tf t with
      | mk o t2 =>
        rw [hv] at hred
        cases o with
        | none =>
          have hred2 : adminAuth hash adminKey (some hdr) now tf t =
              (GateResult.reject 403, t2) := hred
          refine ⟨?_, ?_, ?_⟩
          · rw [hred2]
            constructor
            · rintro ⟨o, ho⟩; cases ho
            · rintro (⟨a, hak, hane, htok⟩ | ⟨r, hvr, -⟩)
              · exact absurd htok (hrootfalse a hak hane)
              · exact absurd hvr (by simp)
          · intro a hak hane htok
            exact absurd htok (hrootfalse a hak hane)
          · intro r hne hvr hperms
            rw [hred2]
        | some r =>
          by_cases hperm : (r.permissions.contains "*" ||
              r.permissions.contains "admin:*") = true
          · have hred2 : adminAuth hash adminKey (some hdr) now tf t =
                (GateResult.proceed (some r), t2) := by
              rw [hred]
              exact if_pos hperm
            refine ⟨?_, ?_, ?_⟩
            · rw [hred2]
              constructor
              · intro _
                refine Or.inr ⟨r, rfl, ?_⟩
                simpa using hperm
              · intro _; exact ⟨some r, rfl⟩
            · intro a hak hane htok
              exact absurd htok (hrootfalse a hak hane)
            · intro r2 hne hvr hperms
              have hvr2 : some r = some r2 := hvr
              simp only [Option.some.injEq] at hvr2
              rw [hvr2, hperms] at hperm
              exact absurd hperm (by decide)
          · have hred2 : adminAuth hash adminKey (some hdr) now tf t =
                (GateResult.reject 403, t2) := by
              rw [hred]
              exact if_neg hperm
            refine ⟨?_, ?_, ?_⟩
            · rw [hred2]
              constructor
              · rintro ⟨o, ho⟩; cases ho
              · rintro (⟨a, hak, hane, htok⟩ | ⟨r2, hvr, hp⟩)
                · exact absurd htok (hrootfalse a hak hane)
                · have hvr2 : some r = some r2 := hvr
                  simp only [Option.some.injEq] at hvr2
                  rw [← hvr2] at hp
                  exfalso
                  apply hperm
                  rcases hp with hp | hp
                  · simp [hp]
                  · simp [hp]
            · intro a hak hane htok
              exact absurd htok (hrootfalse a hak hane)
            · intro r2 hne hvr hperms
              rw [hred2]
    · rw [if_neg hsk] at hred
      have hnores : ∀ r : ApiKeyRecord,
          (ApiKeyStore.validate hash token now tf t).1 ≠ some r := by
        intro r hvr
        obtain ⟨hmem, hkh⟩ :=
          validate_fst_mem hash token now tf t r hvr
        obtain ⟨k, hks, hkeq⟩ := hwf.hashFromStoreKey r hmem
        have htk : token = k := hinj (by rw [← hkh, hkeq])
        rw [htk] at hsk
        exact absurd hks hsk
      refine ⟨?_, ?_, ?_⟩
      · rw [hred]
        constructor
        · rintro ⟨o, ho⟩; cases ho
        · rintro (⟨a, hak, hane, htok⟩ | ⟨r, hvr, -⟩)
          · exact absurd htok (hrootfalse a hak hane)
          · exact absurd hvr (hnores r)
      · intro a hak hane htok
        exact absurd htok (hrootfalse a hak hane)
      · intro r hne hvr
        exact absurd hvr (hnores r)

/-- Witness for C2: the configured root secret authorizes with the table
untouched and no record attached. -/
theorem adminAuth_authorizes_iff_witness :
    adminAuth chash (some "root") (some "Bearer root") 5 false [sampleLive] =
      (GateResult.proceed none, [sampleLive]) := by
  have h := adminAuth_authorizes_iff chash chash_inj (some "root")
    "Bearer root" "root" 5 false [sampleLive] wf_sampleLive (by decide)
  exact h.2.1 "root" rfl (by decide) rfl

/-- A string has length zero exactly when it is empty. -/
theorem strLenZero (s : String) : s.length = 0 ↔ s = "" := by
  constructor
  · intro h
    exact String.ext (List.length_eq_zero.mp h)
  · intro h; rw [h]; rfl

/-- Counterexample to C4: a request whose permissions field is present but
not an array — the empty string — is accepted, because the source's
`permissions && !Array.isArray(permissions)` guard skips every falsy value;
the claim predicts a ValidationError. -/
theorem postKeys_accepts_falsy_nonarray_permissions :
    (postKeys chash "sk-abcdefghijklmn" "id1" 5
        { name := JsVal.jstr "A", permissions := JsVal.jstr "",
          expiresAt := JsVal.undef } []).1.isValidationError = false := by
  decide

/-- C4 (amended): the POST handler rejects with a ValidationError any
request whose name is empty (after trimming) or longer than 100
characters, whose permissions field is truthy but not an array — falsy
non-array permissions values such as the empty string are treated as
omitted and default to the wildcard — or whose expiresAt is a number not
in the future; with valid inputs and fresh generated id and key it
persists exactly one new row and returns the plaintext secret. -/
theorem postKeys_validation_amended (hash : String → String)
    (key id : String) (now : Int) (body : CreateBody) (t : Table)
    (hnow : 0 < now) :
    (∀ s, body.name = JsVal.jstr s → (jsTrim s = "" ∨ 100 < s.length) →
        ∃ m, postKeys hash key id now body t =
          (CreateResp.validationError m, t))
    ∧ (∀ s, body.name = JsVal.jstr s → jsTrim s ≠ "" → s.length ≤ 100 →
        body.permissions.truthy = true → body.permissions.isArr = false →
        ∃ m, postKeys hash key id now body t =
          (CreateResp.validationError m, t))
    ∧ (∀ s n, body.name = JsVal.jstr s → jsTrim s ≠ "" → s.length ≤ 100 →
        (body.permissions.truthy = false ∨ body.permissions.isArr = true) →
        body.expiresAt = JsVal.jnum n → n ≤ now →
        ∃ m, postKeys hash key id now body t =
          (CreateResp.validationError m, t))
    ∧ (∀ s ps expOpt, body.name = JsVal.jstr s → jsTrim s ≠ "" →
        s.length ≤ 100 →
        (body.permissions = JsVal.jarr ps ∨
          (body.permissions.truthy = false ∧ ps = ["*"])) →
        (((body.expiresAt = JsVal.undef ∨ body.expiresAt = JsVal.jnull) ∧
            expOpt = none)
          ∨ (∃ n, body.expiresAt = JsVal.jnum n ∧ now < n ∧
              expOpt = some n)) →
        t.any (fun r => r.id == id || r.keyHash == hash key) = false →
        postKeys hash key id now body t =
          (CreateResp.created key id (jsTrim s) (key.take 10 ++ "...") ps
              now expOpt,
           t ++ [{ id := id, name := jsTrim s,
                   displayFragment := key.take 10 ++ "...",
                   keyHash := hash key, permissions := ps, createdAt := now,
                   lastUsedAt := none, expiresAt := expOpt,
                   revoked := false }])) := by
  refine ⟨?_, ?_, ?_, ?_⟩
  · intro s hname hbad
    by_cases h0 : jsTrim s = ""
    · refine ⟨"Name is required and must be a non-empty string", ?_⟩
      have h0len : (jsTrim s).length = 0 := (strLenZero (jsTrim s)).mpr h0
      simp [postKeys, hname, h0len]
    · have hlen : 100 < s.length := by
        rcases hbad with hbad | hbad
        · exact absurd hbad h0
        · exact hbad
      refine ⟨"Name must be 100 characters or less", ?_⟩
      have h0len : ¬ (jsTrim s).length = 0 := fun h =>
        h0 ((strLenZero (jsTrim s)).mp h)
      simp [postKeys, hname, h0len, hlen]
  · intro s hname hne hlen htr har
    refine ⟨"Permissions must be an array of strings", ?_⟩
    have h0len : ¬ (jsTrim s).length = 0 := fun h =>
      hne ((strLenZero (jsTrim s)).mp h)
    have hlen2 : ¬ s.length > 100 := by omega
    simp [postKeys, hname, h0len, hlen2, htr, har]
  · intro s n hname hne hlen hperm hexp hle
    refine ⟨"expiresAt must be a future Unix timestamp in milliseconds", ?_⟩
    have h0len : ¬ (jsTrim s).length = 0 := fun h =>
      hne ((strLenZero (jsTrim s)).mp h)
    have hlen2 : ¬ s.length > 100 := by omega
    have hpermg : (body.permissions.truthy && !body.permissions.isArr) = false := by
      rcases hperm with h | h <;> simp [h]
    simp [postKeys, hname, h0len, hlen2, hpermg, hexp, JsVal.toNumber, hle]
  · intro s ps expOpt hname hne hlen hperm hexp hfresh
    have h0len : ¬ (jsTrim s).length = 0 := fun h =>
      hne ((strLenZero (jsTrim s)).mp h)
    have hlen2 : ¬ s.length > 100 := by omega
    have hpermg : (body.permissions.truthy && !body.permissions.isArr) = false := by
      rcases hperm with h | ⟨h, -⟩
      · simp [h, JsVal.truthy, JsVal.isArr]
      · simp [h]
    have hpermArg : (match body.permissions with
        | JsVal.jarr xs => xs
        | _ => ["*"]) = ps := by
      rcases hperm with h | ⟨h, hps⟩
      · rw [h]
      · rw [hps]
        cases hbp : body.permissions <;>
          first | rfl | (rw [hbp] at h; simp [JsVal.truthy] at h)
    have hexpBad : (if body.expiresAt = JsVal.undef ∨
          body.expiresAt = JsVal.jnull then false
        else match body.expiresAt.toNumber with
          | none => true
          | some n2 => decide (n2 ≤ now)) = false := by
      rcases hexp with ⟨h, -⟩ | ⟨n, h, hlt, -⟩
      · rw [if_pos h]
      · rw [h]
        have : ¬ (JsVal.jnum n = JsVal.undef ∨ JsVal.jnum n = JsVal.jnull) := by
          simp
        rw [if_neg this]
        simp only [JsVal.toNumber]
        simp
        omega
    have hexpArg : (if body.expiresAt.truthy then body.expiresAt.toNumber
        else none) = expOpt ∧ ApiKeyStore.orNullInt expOpt = expOpt := by
      rcases hexp with ⟨h, hnone⟩ | ⟨n, h, hlt, hsome⟩
      · subst hnone
        rcases h with h | h <;>
          simp [h, JsVal.truthy, ApiKeyStore.orNullInt]
      · subst hsome
        have hn0 : ¬ n = 0 := by omega
        simp [h, JsVal.truthy, JsVal.toNumber, hn0, ApiKeyStore.orNullInt]
    have hok : ApiKeyStore.create hash key id now
        { name := jsTrim s, permissions := some ps, expiresAt := expOpt } t =
        .ok ({ key := key, record :=
          { id := id, name := jsTrim s,
            displayFragment := key.take 10 ++ "...", keyHash := hash key,
            permissions := ps, createdAt := now, lastUsedAt := none,
            expiresAt := expOpt, revoked := false } },
          t ++ [{ id := id, name := jsTrim s,
                  displayFragment := key.take 10 ++ "...",
                  keyHash := hash key, permissions := ps, createdAt := now,
                  lastUsedAt := none, expiresAt := expOpt,
                  revoked := false }]) := by
      unfold ApiKeyStore.create
      rw [if_neg (by rw [hfresh]; exact Bool.false_ne_true)]
      simp only [ApiKeyStore.orStarPerms, hexpArg.2]
    simp only [postKeys, hname, h0len, if_false, hlen2, hpermg,
      Bool.false_eq_true, hexpBad, hpermArg, hexpArg.1, hok]

/-- Witness for C4 (amended): a fully valid request creates exactly one
row and echoes the plaintext key. -/
theorem postKeys_validation_amended_witness :
    postKeys chash "sk-witness4keyxx" "w4" 5
        { name := JsVal.jstr "A", permissions := JsVal.jarr ["*"],
          expiresAt := JsVal.jnum 99 } [] =
      (CreateResp.created "sk-witness4keyxx" "w4" "A"
          ("sk-witness4keyxx".take 10 ++ "...") ["*"] 5 (some 99),
       [] ++ [{ id := "w4", name := "A",
                displayFragment := "sk-witness4keyxx".take 10 ++ "...",
                keyHash := chash "sk-witness4keyxx", permissions := ["*"],
                createdAt := 5, lastUsedAt := none, expiresAt := some 99,
                revoked := false }]) := by
  have h := (postKeys_validation_amended chash "sk-witness4keyxx" "w4" 5
    { name := JsVal.jstr "A", permissions := JsVal.jarr ["*"],
      expiresAt := JsVal.jnum 99 } [] (by decide)).2.2.2
  exact h "A" ["*"] (some 99) rfl (by decide) (by decide) (Or.inl rfl)
    (Or.inr ⟨99, rfl, by decide, rfl⟩) (by decide)

/-- Sanitization ignores the digest: rows equal up to the digest column
sanitize identically. -/
theorem sbd_sanitize {a b : ApiKeyRecord} (h : SameButDigest a b) :
    sanitize a = sanitize b := by
  obtain ⟨h1, h2, h3, h4, h5, h6, h7, h8⟩ := h
  simp [sanitize, h1, h2, h3, h4, h5, h6, h7, h8]

/-- The revoked filter respects digest-agnostic equality. -/
theorem sbd_forall₂_filter {t1 t2 : Table}
    (h : List.Forall₂ SameButDigest t1 t2) :
    List.Forall₂ SameButDigest (t1.filter (fun r => !r.revoked))
      (t2.filter (fun r => !r.revoked)) := by
  induction h with
  | nil => exact List.Forall₂.nil
  | @cons a b l1 l2 hab htail ih =>
    simp only [List.filter_cons]
    have hrev : (!a.revoked) = (!b.revoked) := by
      rw [hab.2.2.2.2.2.2.2]
    rw [hrev]
    by_cases hc : (!b.revoked) = true
    · rw [if_pos hc, if_pos hc]
      exact List.Forall₂.cons hab ih
    · rw [if_neg hc, if_neg hc]
      exact ih

/-- Ordered insertion respects digest-agnostic equality, since the sort key
is createdAt. -/
theorem sbd_forall₂_orderedInsert (a b : ApiKeyRecord)
    (hab : SameButDigest a b) {l1 l2 : Table}
    (h : List.Forall₂ SameButDigest l1 l2) :
    List.Forall₂ SameButDigest
      (List.orderedInsert ApiKeyStore.createdDesc a l1)
      (List.orderedInsert ApiKeyStore.createdDesc b l2) := by
  induction h with
  | nil => exact List.Forall₂.cons hab List.Forall₂.nil
  | @cons x y l1 l2 hxy htail ih =>
    simp only [List.orderedInsert]
    have hc : ApiKeyStore.createdDesc a x ↔ ApiKeyStore.createdDesc b y := by
      unfold ApiKeyStore.createdDesc
      rw [hab.2.2.2.2.1, hxy.2.2.2.2.1]
    by_cases hd : ApiKeyStore.createdDesc a x
    · rw [if_pos hd, if_pos (hc.mp hd)]
      exact List.Forall₂.cons hab (List.Forall₂.cons hxy htail)
    · rw [if_neg hd, if_neg (fun hh => hd (hc.mpr hh))]
      exact List.Forall₂.cons hxy ih

/-- Insertion sort respects digest-agnostic equality. -/
theorem sbd_forall₂_insertionSort {l1 l2 : Table}
    (h : List.Forall₂ SameButDigest l1 l2) :
    List.Forall₂ SameButDigest
      (List.insertionSort ApiKeyStore.createdDesc l1)
      (List.insertionSort ApiKeyStore.createdDesc l2) := by
  induction h with
  | nil => exact List.Forall₂.nil
  | cons hab htail ih =>
    simp only [List.insertionSort]
    exact sbd_forall₂_orderedInsert _ _ hab ih

/-- Mapping sanitize over digest-agnostic equal lists yields equal
results. -/
theorem sbd_map_sanitize {l1 l2 : Table}
    (h : List.Forall₂ SameButDigest l1 l2) :
    l1.map sanitize = l2.map sanitize := by
  induction h with
  | nil => rfl
  | cons hab htail ih => simp only [List.map_cons, ih, sbd_sanitize hab]

/-- Lookup by id on digest-agnostic equal lists finds related rows. -/
theorem sbd_getById (i : String) {l1 l2 : Table}
    (h : List.Forall₂ SameButDigest l1 l2) :
    (ApiKeyStore.getById i l1 = none ∧ ApiKeyStore.getById i l2 = none)
    ∨ (∃ a b, ApiKeyStore.getById i l1 = some a ∧
        ApiKeyStore.getById i l2 = some b ∧ SameButDigest a b) := by
  induction h with
  | nil => exact Or.inl ⟨rfl, rfl⟩
  | @cons a b l1 l2 hab htail ih =>
    simp only [ApiKeyStore.getById, List.find?_cons]
    have hid : (a.id == i) = (b.id == i) := by rw [hab.1]
    rw [hid]
    by_cases hc : (b.id == i) = true
    · rw [hc]
      exact Or.inr ⟨a, b, rfl, rfl, hab⟩
    · rw [Bool.not_eq_true] at hc
      rw [hc]
      exact ih

/-- C5: the sanitized views of the list and get-by-id endpoints never
depend on the secret digest: two tables equal in every column except
keyHash yield identical GET /keys and GET /keys/:id responses, for every
includeRevoked query value and every id. -/
theorem sanitized_views_digest_independent (t1 t2 : Table)
    (h : List.Forall₂ SameButDigest t1 t2) :
    (∀ q, getKeysRoute q t1 = getKeysRoute q t2)
    ∧ (∀ i, getKeyByIdRoute i t1 = getKeyByIdRoute i t2) := by
  constructor
  · intro q
    simp only [getKeysRoute, ApiKeyStore.list]
    by_cases hq : (q == some "true") = true
    · rw [hq]
      simp only [if_true]
      exact sbd_map_sanitize (sbd_forall₂_insertionSort h)
    · rw [Bool.not_eq_true] at hq
      rw [hq]
      simp only [Bool.false_eq_true, if_false]
      exact sbd_map_sanitize
        (sbd_forall₂_insertionSort (sbd_forall₂_filter h))
  · intro i
    rcases sbd_getById i h with ⟨h1, h2⟩ | ⟨a, b, h1, h2, hab⟩
    · simp [getKeyByIdRoute, h1, h2]
    · simp [getKeyByIdRoute, h1, h2, sbd_sanitize hab]

/-- Witness for C5: responses agree on two singleton tables differing only
in the stored digest. -/
theorem sanitized_views_digest_independent_witness :
    getKeysRoute none [sampleLive] = getKeysRoute none [sampleLiveAlt] := by
  have h := sanitized_views_digest_independent [sampleLive] [sampleLiveAlt]
    (List.Forall₂.cons ⟨rfl, rfl, rfl, rfl, rfl, rfl, rfl, rfl⟩
      List.Forall₂.nil)
  exact h.1 none

/-- The JavaScript defaulting of expiresAt never stores a zero expiry. -/
theorem orNullInt_ne_zero (o : Option Int) :
    ApiKeyStore.orNullInt o ≠ some 0 := by
  cases o with
  | none => simp [ApiKeyStore.orNullInt]
  | some e =>
    by_cases he : e = 0
    · simp [ApiKeyStore.orNullInt, he]
    · simp [ApiKeyStore.orNullInt, he]

/-- Well-formedness is preserved by any rewrite that keeps id, digest and
expiry columns. -/
theorem wf_map_preserving (hash : String → String) (t : Table)
    (f : ApiKeyRecord → ApiKeyRecord)
    (hid : ∀ a, (f a).id = a.id) (hkh : ∀ a, (f a).keyHash = a.keyHash)
    (hexp : ∀ a, (f a).expiresAt = a.expiresAt)
    (hwf : WF hash t) : WF hash (t.map f) := by
  refine ⟨?_, ?_, ?_, ?_⟩
  · rw [List.map_map]
    have hfun : (ApiKeyRecord.id ∘ f) = ApiKeyRecord.id := funext hid
    rw [hfun]
    exact hwf.idsNodup
  · rw [List.map_map]
    have hfun : (ApiKeyRecord.keyHash ∘ f) = ApiKeyRecord.keyHash :=
      funext hkh
    rw [hfun]
    exact hwf.hashesNodup
  · intro r hr
    obtain ⟨a, ha, rfl⟩ := List.mem_map.mp hr
    rw [hexp a]
    exact hwf.noZeroExpiry a ha
  · intro r hr
    obtain ⟨a, ha, rfl⟩ := List.mem_map.mp hr
    rw [hkh a]
    exact hwf.hashFromStoreKey a ha

/-- Every store operation with a generated sk- key preserves the table
invariant. -/
theorem wf_applyOp (hash : String → String) (op : Op) (t : Table)
    (hk : op.keyOk) (hwf : WF hash t) : WF hash (applyOp hash op t) := by
  cases op with
  | createOp key i now input =>
    simp only [applyOp]
    cases hc : ApiKeyStore.create hash key i now input t with
    | error e => exact hwf
    | ok p =>
      obtain ⟨res, t2⟩ := p
      obtain ⟨hany, -, hrec, ht2⟩ :=
        create_ok_elim hash key i now input t res t2 hc
      show WF hash t2
      rw [List.any_eq_false] at hany
      have hfresh : ∀ r ∈ t, r.id ≠ i ∧ r.keyHash ≠ hash key := by
        intro r hr
        have := hany r hr
        simp only [Bool.or_eq_true, beq_iff_eq, not_or] at this
        exact this
      rw [ht2, hrec]
      refine ⟨?_, ?_, ?_, ?_⟩
      · rw [List.map_append, List.nodup_append]
        refine ⟨hwf.idsNodup, List.nodup_singleton _, ?_⟩
        intro x hx
        obtain ⟨a, ha, rfl⟩ := List.mem_map.mp hx
        simp only [List.map_cons, List.map_nil, List.mem_singleton]
        exact (hfresh a ha).1
      · rw [List.map_append, List.nodup_append]
        refine ⟨hwf.hashesNodup, List.nodup_singleton _, ?_⟩
        intro x hx
        obtain ⟨a, ha, rfl⟩ := List.mem_map.mp hx
        simp only [List.map_cons, List.map_nil, List.mem_singleton]
        exact (hfresh a ha).2
      · intro r hr
        rcases List.mem_append.mp hr with hm | hm
        · exact hwf.noZeroExpiry r hm
        · rw [List.mem_singleton] at hm
          subst hm
          exact orNullInt_ne_zero input.expiresAt
      · intro r hr
        rcases List.mem_append.mp hr with hm | hm
        · exact hwf.hashFromStoreKey r hm
        · rw [List.mem_singleton] at hm
          subst hm
          exact ⟨key, hk, rfl⟩
  | validateOp key now tf =>
    simp only [applyOp]
    rcases validate_snd_cases hash key now tf t with hcase | ⟨r0, hcase⟩
    · rw [hcase]; exact hwf
    · rw [hcase]
      refine wf_map_preserving hash t _ ?_ ?_ ?_ hwf
      all_goals intro a
      all_goals by_cases h : a.id = r0.id <;> simp [h]
  | revokeOp i =>
    show WF hash (t.map fun r =>
      if r.id = i then { r with revoked := true } else r)
    refine wf_map_preserving hash t _ ?_ ?_ ?_ hwf
    all_goals intro a
    all_goals by_cases h : a.id = i <;> simp [h]
  | deleteOp i =>
    show WF hash (t.filter fun r => !(r.id == i))
    refine ⟨?_, ?_, ?_, ?_⟩
    · exact hwf.idsNodup.sublist
        ((List.filter_sublist t).map ApiKeyRecord.id)
    · exact hwf.hashesNodup.sublist
        ((List.filter_sublist t).map ApiKeyRecord.keyHash)
    · intro r hr
      exact hwf.noZeroExpiry r (List.mem_filter.mp hr).1
    · intro r hr
      exact hwf.hashFromStoreKey r (List.mem_filter.mp hr).1
  | updateNameOp i nm =>
    show WF hash (t.map fun r =>
      if r.id = i then { r with name := nm } else r)
    refine wf_map_preserving hash t _ ?_ ?_ ?_ hwf
    all_goals intro a
    all_goals by_cases h : a.id = i <;> simp [h]
  | getByIdOp i => exact hwf
  | listOp b => exact hwf
  | countOp => exact hwf

/-- Every table reachable from the empty table by store operations is well
formed: the WF hypotheses of the validate and AdminGate theorems hold of
every state the program can produce. -/
theorem wf_of_reachable (hash : String → String) (t : Table)
    (h : Reachable hash t) : WF hash t := by
  induction h with
  | empty => exact wf_nil hash
  | step op t hr hk ih => exact wf_applyOp hash op t hk ih

end Cipher
